import Mathlib

/-!
Verification of the cuivre 2D rendering library (Rust), focused on the
draw-call batching engine in `src/graphics/batches.rs`, the texture
construction path in `src/graphics/textures.rs`, and the projection
matrix in `src/graphics/camera.rs`.

Modelling conventions:
- `f32` values are modelled as rational numbers (`Rat`).  The batching
  code never performs arithmetic on the floats it stores (it only copies
  them), so equalities proved in the model correspond to bit-for-bit
  equalities of the copied floats.  The orthographic projection matrix
  performs only field arithmetic, which `Rat` models exactly.
- Machine integers (`u32`, `usize`, `GLuint`) are modelled as `Nat`;
  where the source performs `u32` multiplication that may wrap, the
  model reduces modulo `2 ^ 32`.
- The OpenGL FFI is modelled by explicit state passing: a `GlState`
  records a fresh-handle counter and the trace of GL calls issued.
-/

/-- Modelled from the spec: `MAX_BATCH_SIZE` is declared in
`src/graphics/mesh.rs`, which is missing from the provided sources; the
spec fixes it at 256 (its batching scenario states MAX_BATCH_SIZE=256). -/
def MAX_BATCH_SIZE : Nat := 256

/-- Modelled from the spec: `BATCH_INSTANCE_SIZE` is declared in
`src/graphics/mesh.rs`, which is missing from the provided sources; the
spec states INSTANCE_SIZE = 20 floats (4 texture-region + 16 matrix). -/
def BATCH_INSTANCE_SIZE : Nat := 20

/-- cgmath `Vector4<f32>` (`maths::Vector4f`); componentwise access via
`ix` mirrors cgmath `Index<usize>` (0 -> x, 1 -> y, 2 -> z, 3 -> w). -/
structure Vector4f where
  x : Rat
  y : Rat
  z : Rat
  w : Rat
  deriving DecidableEq

/-- Component access, as `v[i]` in the source. -/
def Vector4f.ix (v : Vector4f) : Fin 4 → Rat
  | 0 => v.x
  | 1 => v.y
  | 2 => v.z
  | 3 => v.w

/-- cgmath `Matrix4<f32>` (`maths::Matrix4f`): four columns x, y, z, w;
`m[c][r]` in the source is `(m.col c).ix r` (column-major). -/
structure Matrix4f where
  x : Vector4f
  y : Vector4f
  z : Vector4f
  w : Vector4f
  deriving DecidableEq

/-- Column access, as `m[c]` in the source. -/
def Matrix4f.col (m : Matrix4f) : Fin 4 → Vector4f
  | 0 => m.x
  | 1 => m.y
  | 2 => m.z
  | 3 => m.w

/-- cgmath `Matrix4 * Vector4`: component r of the result is the sum
over columns c of `m[c][r] * v[c]`. -/
def Matrix4f.mulVec (m : Matrix4f) (v : Vector4f) : Vector4f where
  x := m.x.x * v.x + m.y.x * v.y + m.z.x * v.z + m.w.x * v.w
  y := m.x.y * v.x + m.y.y * v.y + m.z.y * v.z + m.w.y * v.w
  z := m.x.z * v.x + m.y.z * v.y + m.z.z * v.z + m.w.z * v.w
  w := m.x.w * v.x + m.y.w * v.y + m.z.w * v.z + m.w.w * v.w

/-- cgmath `Vector2<f32>` (`maths::Vector2f`). -/
structure Vector2f where
  x : Rat
  y : Rat
  deriving DecidableEq

/-- cgmath `Vector2<u32>` (`maths::Vector2u`). -/
structure Vector2u where
  x : Nat
  y : Nat
  deriving DecidableEq

/-- cgmath `Vector3<f32>` (`maths::Vector3f`). -/
structure Vector3f where
  x : Rat
  y : Rat
  z : Rat
  deriving DecidableEq

/-- cgmath `Point3<f32>` (`maths::Point3f`). -/
structure Point3f where
  x : Rat
  y : Rat
  z : Rat
  deriving DecidableEq

/-- `textures.rs`: `TextureID = gl::types::GLuint`. -/
abbrev TextureID := Nat

/-- `textures.rs` `TextureFormat`. -/
inductive TextureFormat where
  | Rgb
  | Rgba
  deriving DecidableEq

/-- `TextureFormat::pixel_length`: bytes per pixel. -/
def TextureFormat.pixel_length : TextureFormat → Nat
  | .Rgb => 3
  | .Rgba => 4

/-- `textures.rs` `WrapMode`. -/
inductive WrapMode where
  | ClampToEdge
  | ClampToBorder
  | MirroredRepeat
  | Repeat
  | MirrorClampToEdge
  deriving DecidableEq

/-- `textures.rs` `MinFilterMode`. -/
inductive MinFilterMode where
  | Nearest
  | Linear
  | NearestMipmapNearest
  | LinearMipmapNearest
  | NearestMipmapLinear
  | LinearMipmapLinear
  deriving DecidableEq

/-- `textures.rs` `MaxFilterMode`. -/
inductive MaxFilterMode where
  | Nearest
  | Linear
  deriving DecidableEq

/-- `textures.rs` `TextureOptions`. -/
structure TextureOptions where
  format : TextureFormat
  h_wrap_mode : WrapMode
  v_wrap_mode : WrapMode
  min_filter_mode : MinFilterMode
  max_filter_mode : MaxFilterMode
  deriving DecidableEq

/-- `textures.rs` `TextureError`.  The `Io` and `ImageError` payloads
are external error values irrelevant to the claims and are dropped. -/
inductive TextureError where
  | Io
  | ImageError
  | InvalidTextureData (pixel_size : Nat) (width : Nat) (height : Nat) (len : Nat)
  deriving DecidableEq

/-- `textures.rs` `Texture`: id plus metadata of a loaded GL texture. -/
structure Texture where
  id : TextureID
  size : Vector2u
  options : TextureOptions
  deriving DecidableEq

/-- `shaders.rs` `Program`: wraps a `ProgramID = GLuint`; equality is
derived field equality, as in the Rust `derive(PartialEq, Eq)`. -/
structure Program where
  id : Nat
  deriving DecidableEq

/-- Modelled from the spec: `Mesh` is declared in
`src/graphics/mesh.rs`, which is missing from the provided sources.  The
spec data model uses it only as a mesh identifier compared for equality
by the batching code, so it is modelled as an identifier. -/
structure Mesh where
  id : Nat
  deriving DecidableEq

/-- `batches.rs` `DrawCall`: one queued request to draw an object. -/
structure DrawCall where
  program : Program
  mesh : Mesh
  texture : Texture
  batch_vbo : Nat
  tex_position : Vector4f
  matrix : Matrix4f

/-- `batches.rs` `Batch`.  The fixed array
`buffer: [f32; BATCH_INSTANCE_SIZE * MAX_BATCH_SIZE]` is modelled as a
total map from indices to values; `Batch::add` only ever writes indices
below `BATCH_INSTANCE_SIZE * MAX_BATCH_SIZE`. -/
structure Batch where
  program : Program
  mesh : Mesh
  texture : TextureID
  batch_vbo : Nat
  buffer : Nat → Rat
  obj_count : Nat

/-- The two copy loops of `Batch::add`: cell `start + i` (i < 4)
receives `drawcall.tex_position[i]`, and cell `start + 4 + i` (i < 16)
receives `drawcall.matrix[i / 4][i % 4]`; all other cells are kept. -/
def writeInstance (buf : Nat → Rat) (start : Nat) (dc : DrawCall) : Nat → Rat :=
  fun j =>
    if h1 : start ≤ j ∧ j < start + 4 then
      dc.tex_position.ix ⟨j - start, by omega⟩
    else if h2 : start + 4 ≤ j ∧ j < start + 4 + 16 then
      (dc.matrix.col ⟨(j - (start + 4)) / 4, by omega⟩).ix ⟨(j - (start + 4)) % 4, by omega⟩
    else
      buf j

/-- `Batch::add`: rejects on a key mismatch, then on a full batch;
otherwise copies the texture region and matrix of the drawcall at
offset `obj_count * BATCH_INSTANCE_SIZE` and increments `obj_count`.
Returns the flag together with the (possibly updated) batch. -/
def Batch.add (b : Batch) (dc : DrawCall) : Bool × Batch :=
  if dc.program ≠ b.program ∨ dc.mesh ≠ b.mesh ∨ dc.texture.id ≠ b.texture then
    (false, b)
  else if b.obj_count ≥ MAX_BATCH_SIZE then
    (false, b)
  else
    (true,
      { b with
        buffer := writeInstance b.buffer (b.obj_count * BATCH_INSTANCE_SIZE) dc
        obj_count := b.obj_count + 1 })

/-- `Batch::new`: an empty batch keyed by the drawcall, followed by one
`add` of that same drawcall (whose boolean result is discarded). -/
def Batch.new (dc : DrawCall) : Batch :=
  (Batch.add
    { program := dc.program
      mesh := dc.mesh
      texture := dc.texture.id
      batch_vbo := dc.batch_vbo
      buffer := fun _ => 0
      obj_count := 0 } dc).2

/-- `batches.rs` `BatchList`. -/
structure BatchList where
  batches : List Batch

/-- `BatchList::new`. -/
def BatchList.new : BatchList := ⟨[]⟩

/-- The scan loop of `BatchList::insert`: the first batch whose `add`
succeeds absorbs the drawcall; if none succeeds, a new batch is
appended at the end. -/
def insertIntoBatches : List Batch → DrawCall → List Batch
  | [], dc => [Batch.new dc]
  | b :: rest, dc =>
    let r := b.add dc
    if r.1 then r.2 :: rest else r.2 :: insertIntoBatches rest dc

/-- `BatchList::insert`. -/
def BatchList.insert (l : BatchList) (dc : DrawCall) : BatchList :=
  ⟨insertIntoBatches l.batches dc⟩

/-- Successive `BatchList::insert` calls over a frame, in submission
order. -/
def BatchList.insertAll (l : BatchList) (dcs : List DrawCall) : BatchList :=
  dcs.foldl BatchList.insert l

/-- `BatchList::clear`. -/
def BatchList.clear (_ : BatchList) : BatchList := ⟨[]⟩

/-- `camera.rs` `Camera`. -/
structure Camera where
  position : Point3f
  direction : Vector3f
  near : Rat
  far : Rat
  size : Vector2f
  perspective : Bool

/-- `Camera::width`. -/
def Camera.width (c : Camera) : Rat := c.size.x

/-- `Camera::height`. -/
def Camera.height (c : Camera) : Rat := c.size.y

/-- cgmath conversion of an `Ortho { left, right, bottom, top, near,
far }` frustum into a `Matrix4` (the external collaborator invoked by
the orthographic branch of `Camera::proj_matrix`): the standard OpenGL
orthographic projection matrix. -/
def orthoMatrix (l r bo t n f : Rat) : Matrix4f where
  x := ⟨2 / (r - l), 0, 0, 0⟩
  y := ⟨0, 2 / (t - bo), 0, 0⟩
  z := ⟨0, 0, -2 / (f - n), 0⟩
  w := ⟨-(r + l) / (r - l), -(t + bo) / (t - bo), -(f + n) / (f - n), 1⟩

/-- `Camera::proj_matrix`.  The perspective branch delegates wholly to
the external cgmath `PerspectiveFov` conversion, which involves
irrational trigonometry; it is taken as an abstract parameter `persp`
(arguments: vertical FOV in degrees, aspect ratio `size.x / size.y`,
near, far).  The orthographic branch is translated exactly. -/
def Camera.proj_matrix (persp : Rat → Rat → Rat → Rat → Matrix4f) (c : Camera) : Matrix4f :=
  if c.perspective then
    persp c.size.y (c.size.x / c.size.y) c.near c.far
  else
    orthoMatrix (-c.size.x / 2) (c.size.x / 2) (-c.size.y / 2) (c.size.y / 2) c.near c.far

/-- One recorded OpenGL FFI call issued by `Texture::from_bytes`. -/
inductive GlCall where
  | genTextures (id : Nat)
  | bindTexture (id : Nat)
  | texImage2D (width : Nat) (height : Nat) (format : TextureFormat)
  | texParameterWrapS (m : WrapMode)
  | texParameterWrapT (m : WrapMode)
  | texParameterMinFilter (m : MinFilterMode)
  | texParameterMagFilter (m : MaxFilterMode)
  | generateMipmap
  deriving DecidableEq

/-- The GL context state visible to `Texture::from_bytes`: a counter
supplying fresh texture handles (`gl::GenTextures`) and the trace of GL
calls issued so far. -/
structure GlState where
  next_texture_id : Nat
  calls : List GlCall
  deriving DecidableEq

/-- `Texture::from_bytes`: validates `data.len()` against
`(pixel_length * width * height) as usize` (a `u32` product, hence the
reduction modulo `2 ^ 32`), returning `InvalidTextureData` before any
GL call on mismatch; otherwise allocates a handle, issues the GL upload
and parameter calls (mipmap generation only for mipmapped minification
filters), and returns the new `Texture`. -/
def Texture.from_bytes (data : List Nat) (options : TextureOptions)
    (width height : Nat) (s : GlState) : Except TextureError Texture × GlState :=
  if data.length ≠ (options.format.pixel_length * width * height) % 2 ^ 32 then
    (Except.error
      (TextureError.InvalidTextureData options.format.pixel_length width height data.length), s)
  else
    let id := s.next_texture_id
    let mipmapCalls : List GlCall :=
      match options.min_filter_mode with
      | .NearestMipmapNearest | .LinearMipmapNearest
      | .NearestMipmapLinear | .LinearMipmapLinear => [GlCall.generateMipmap]
      | .Nearest | .Linear => []
    (Except.ok { id := id, size := ⟨width, height⟩, options := options },
      { next_texture_id := id + 1
        calls := s.calls ++
          [GlCall.genTextures id, GlCall.bindTexture id,
            GlCall.texImage2D width height options.format,
            GlCall.texParameterWrapS options.h_wrap_mode,
            GlCall.texParameterWrapT options.v_wrap_mode,
            GlCall.texParameterMinFilter options.min_filter_mode,
            GlCall.texParameterMagFilter options.max_filter_mode] ++
          mipmapCalls ++ [GlCall.bindTexture 0] })

/-- Instance slot j of a batch holds exactly the data of drawcall dc,
and dc is compatible with the batch key: the texture region occupies
cells `j * BATCH_INSTANCE_SIZE .. + 3` and the column-major matrix the
next 16 cells, as written by `Batch::add`. -/
def BatchMatchesAt (b : Batch) (j : Nat) (dc : DrawCall) : Prop :=
  dc.program = b.program ∧ dc.mesh = b.mesh ∧ dc.texture.id = b.texture ∧
  (∀ i : Fin 4, b.buffer (j * BATCH_INSTANCE_SIZE + i.val) = dc.tex_position.ix i) ∧
  (∀ i : Fin 16, b.buffer (j * BATCH_INSTANCE_SIZE + 4 + i.val) =
    (dc.matrix.col ⟨i.val / 4, by have := i.isLt; omega⟩).ix
      ⟨i.val % 4, by have := i.isLt; omega⟩)

/-- The instances of batch b are exactly the data of a subsequence of
the submitted drawcalls, in submission order, one per instance slot. -/
def Provenance (dcs : List DrawCall) (b : Batch) : Prop :=
  ∃ ds : List DrawCall, ds.Sublist dcs ∧ ds.length = b.obj_count ∧
    ∀ (k : Nat) (hk : k < ds.length), BatchMatchesAt b k (ds.get ⟨k, hk⟩)

/-- Batch b carries the compatibility key (p, m, t). -/
def HomKey (p : Program) (m : Mesh) (t : TextureID) (b : Batch) : Prop :=
  b.program = p ∧ b.mesh = m ∧ b.texture = t

/-- The shape `BatchList::insert` maintains on a single-key workload:
either no batches yet (and no objects), or all batches carry the key,
every batch before the most recent one is exactly full, the most
recent batch holds between 1 and `MAX_BATCH_SIZE` objects, and the
object counts sum to n. -/
def FirstFitShape (p : Program) (m : Mesh) (t : TextureID) (l : List Batch) (n : Nat) : Prop :=
  (l = [] ∧ n = 0) ∨
  ∃ init lst, l = init ++ [lst] ∧
    (∀ b ∈ init, HomKey p m t b ∧ b.obj_count = MAX_BATCH_SIZE) ∧
    HomKey p m t lst ∧ 1 ≤ lst.obj_count ∧ lst.obj_count ≤ MAX_BATCH_SIZE ∧
    n = MAX_BATCH_SIZE * init.length + lst.obj_count

/-- Default texture options (`TextureOptions::default`). -/
def exOptions : TextureOptions :=
  ⟨TextureFormat.Rgba, WrapMode.Repeat, WrapMode.Repeat,
    MinFilterMode.NearestMipmapNearest, MaxFilterMode.Nearest⟩

/-- Concrete texture A used in the scenarios. -/
def texA : Texture := ⟨1, ⟨16, 16⟩, exOptions⟩

/-- Concrete texture B, with a texture handle distinct from A. -/
def texB : Texture := ⟨2, ⟨16, 16⟩, exOptions⟩

/-- An all-zero 4-vector. -/
def vec4zero : Vector4f := ⟨0, 0, 0, 0⟩

/-- An all-zero 4x4 matrix. -/
def mat4zero : Matrix4f := ⟨vec4zero, vec4zero, vec4zero, vec4zero⟩

/-- A concrete drawcall using texture A. -/
def dcA : DrawCall := ⟨⟨7⟩, ⟨3⟩, texA, 5, ⟨0, 0, 1, 1⟩, mat4zero⟩

/-- The same drawcall with texture B instead of texture A. -/
def dcB : DrawCall := { dcA with texture := texB }

/-- The batch-list state reached on the alternating two-texture
workload after k pairs: one batch per texture, k objects each. -/
def AltState (k : Nat) (l : List Batch) : Prop :=
  ∃ bA bB, l = [bA, bB] ∧
    bA.program = dcA.program ∧ bA.mesh = dcA.mesh ∧ bA.texture = texA.id ∧
    bA.obj_count = k ∧
    bB.program = dcB.program ∧ bB.mesh = dcB.mesh ∧ bB.texture = texB.id ∧
    bB.obj_count = k

/-- The scenario input: 300 drawcalls alternating between texture A
and texture B (identical program and mesh). -/
def alternating300 : List DrawCall := List.flatten (List.replicate 150 [dcA, dcB])

/-- A concrete orthographic camera (size 2 x 2, aspect ratio 1). -/
def cam0 : Camera := ⟨⟨0, 0, 0⟩, ⟨0, 0, -1⟩, 1, 10, ⟨2, 2⟩, false⟩

/-- A trivial interpretation of the external perspective conversion. -/
def persp0 : Rat → Rat → Rat → Rat → Matrix4f := fun _ _ _ _ => mat4zero

/-- A fresh GL state: no calls issued, first handle is 0. -/
def glState0 : GlState := ⟨0, []⟩

/-- Ten bytes of texture data (the invalid-length scenario). -/
def data10 : List Nat := List.replicate 10 0

/-- Rejection on a key mismatch: the first early return of `Batch::add`. -/
theorem Batch.add_of_mismatch (b : Batch) (dc : DrawCall)
    (h : dc.program ≠ b.program ∨ dc.mesh ≠ b.mesh ∨ dc.texture.id ≠ b.texture) :
    b.add dc = (false, b) := by
  unfold Batch.add
  rw [if_pos h]

/-- Rejection on a full batch: the second early return of `Batch::add`. -/
theorem Batch.add_of_full (b : Batch) (dc : DrawCall)
    (h : MAX_BATCH_SIZE ≤ b.obj_count) :
    b.add dc = (false, b) := by
  unfold Batch.add
  by_cases hm : dc.program ≠ b.program ∨ dc.mesh ≠ b.mesh ∨ dc.texture.id ≠ b.texture
  · rw [if_pos hm]
  · rw [if_neg hm, if_pos h]

/-- The successful path of `Batch::add`: compatible key and spare
capacity yield the updated batch. -/
theorem Batch.add_of_ok (b : Batch) (dc : DrawCall)
    (hp : dc.program = b.program) (hm : dc.mesh = b.mesh) (ht : dc.texture.id = b.texture)
    (hc : b.obj_count < MAX_BATCH_SIZE) :
    b.add dc = (true,
      { b with
        buffer := writeInstance b.buffer (b.obj_count * BATCH_INSTANCE_SIZE) dc
        obj_count := b.obj_count + 1 }) := by
  unfold Batch.add
  have h1 : ¬(dc.program ≠ b.program ∨ dc.mesh ≠ b.mesh ∨ dc.texture.id ≠ b.texture) := by
    push_neg
    exact ⟨hp, hm, ht⟩
  have h2 : ¬(b.obj_count ≥ MAX_BATCH_SIZE) := not_le.mpr hc
  rw [if_neg h1, if_neg h2]

/-- A failed `Batch::add` leaves the batch unchanged. -/
theorem Batch.add_false_snd (b : Batch) (dc : DrawCall)
    (h : (b.add dc).1 = false) : (b.add dc).2 = b := by
  by_cases hm : dc.program ≠ b.program ∨ dc.mesh ≠ b.mesh ∨ dc.texture.id ≠ b.texture
  · rw [Batch.add_of_mismatch b dc hm]
  · by_cases hc : b.obj_count < MAX_BATCH_SIZE
    · push_neg at hm
      rw [Batch.add_of_ok b dc hm.1 hm.2.1 hm.2.2 hc] at h
      exact absurd h (by simp)
    · rw [Batch.add_of_full b dc (not_lt.mp hc)]

/-- Everything a successful `Batch::add` implies: key compatibility,
spare capacity, and the exact updated batch. -/
theorem Batch.add_true_spec (b : Batch) (dc : DrawCall)
    (h : (b.add dc).1 = true) :
    dc.program = b.program ∧ dc.mesh = b.mesh ∧ dc.texture.id = b.texture ∧
    b.obj_count < MAX_BATCH_SIZE ∧
    (b.add dc).2 =
      { b with
        buffer := writeInstance b.buffer (b.obj_count * BATCH_INSTANCE_SIZE) dc
        obj_count := b.obj_count + 1 } := by
  by_cases hm : dc.program ≠ b.program ∨ dc.mesh ≠ b.mesh ∨ dc.texture.id ≠ b.texture
  · rw [Batch.add_of_mismatch b dc hm] at h
    exact absurd h (by simp)
  · push_neg at hm
    by_cases hc : b.obj_count < MAX_BATCH_SIZE
    · refine ⟨hm.1, hm.2.1, hm.2.2, hc, ?_⟩
      rw [Batch.add_of_ok b dc hm.1 hm.2.1 hm.2.2 hc]
    · rw [Batch.add_of_full b dc (not_lt.mp hc)] at h
      exact absurd h (by simp)

/-- `Batch::add` never changes the batch key or the VBO handle. -/
theorem Batch.add_preserves_fields (b : Batch) (dc : DrawCall) :
    (b.add dc).2.program = b.program ∧ (b.add dc).2.mesh = b.mesh ∧
    (b.add dc).2.texture = b.texture ∧ (b.add dc).2.batch_vbo = b.batch_vbo := by
  cases h : (b.add dc).1
  · rw [Batch.add_false_snd b dc h]
    exact ⟨rfl, rfl, rfl, rfl⟩
  · rw [(Batch.add_true_spec b dc h).2.2.2.2]
    exact ⟨rfl, rfl, rfl, rfl⟩

/-- Reading the texture-region cells written by the copy loops. -/
theorem writeInstance_tex (buf : Nat → Rat) (start : Nat) (dc : DrawCall) (j : Nat)
    (h1 : start ≤ j) (h2 : j < start + 4) :
    writeInstance buf start dc j = dc.tex_position.ix ⟨j - start, by omega⟩ := by
  unfold writeInstance
  rw [dif_pos ⟨h1, h2⟩]

/-- Reading the matrix cells written by the copy loops. -/
theorem writeInstance_mat (buf : Nat → Rat) (start : Nat) (dc : DrawCall) (j : Nat)
    (h1 : start + 4 ≤ j) (h2 : j < start + 20) :
    writeInstance buf start dc j =
      (dc.matrix.col ⟨(j - (start + 4)) / 4, by omega⟩).ix
        ⟨(j - (start + 4)) % 4, by omega⟩ := by
  unfold writeInstance
  rw [dif_neg (by omega), dif_pos ⟨h1, by omega⟩]

/-- Cells below the written window are untouched. -/
theorem writeInstance_lower (buf : Nat → Rat) (start : Nat) (dc : DrawCall) (j : Nat)
    (hj : j < start) :
    writeInstance buf start dc j = buf j := by
  unfold writeInstance
  rw [dif_neg (by omega), dif_neg (by omega)]

/-- Texture-region read, phrased on the slot-relative index. -/
theorem writeInstance_tex_get (buf : Nat → Rat) (start : Nat) (dc : DrawCall) (i : Fin 4) :
    writeInstance buf start dc (start + i.val) = dc.tex_position.ix i := by
  rw [writeInstance_tex buf start dc (start + i.val) (by omega) (by have := i.isLt; omega)]
  congr 1
  exact Fin.ext (by simp)

/-- Matrix read, phrased on the slot-relative index. -/
theorem writeInstance_mat_get (buf : Nat → Rat) (start : Nat) (dc : DrawCall) (i : Fin 16) :
    writeInstance buf start dc (start + 4 + i.val) =
      (dc.matrix.col ⟨i.val / 4, by have := i.isLt; omega⟩).ix
        ⟨i.val % 4, by have := i.isLt; omega⟩ := by
  rw [writeInstance_mat buf start dc (start + 4 + i.val) (by omega)
    (by have := i.isLt; omega)]
  simp only [Nat.add_sub_cancel_left]

/-- `Batch::new` explicitly: the inner `add` always succeeds, so the
new batch holds exactly one instance, copied from the drawcall. -/
theorem Batch.new_spec (dc : DrawCall) :
    Batch.new dc =
      { program := dc.program
        mesh := dc.mesh
        texture := dc.texture.id
        batch_vbo := dc.batch_vbo
        buffer := writeInstance (fun _ => 0) 0 dc
        obj_count := 1 } := by
  unfold Batch.new
  rw [Batch.add_of_ok _ dc rfl rfl rfl (by show 0 < MAX_BATCH_SIZE; decide)]
  rfl

/-- Unfolding of the scan loop on a nonempty batch list. -/
theorem insertIntoBatches_cons (b0 : Batch) (rest : List Batch) (dc : DrawCall) :
    insertIntoBatches (b0 :: rest) dc =
      if (b0.add dc).1 then (b0.add dc).2 :: rest
      else (b0.add dc).2 :: insertIntoBatches rest dc := rfl

/-- Unfolding of the scan loop on an empty batch list. -/
theorem insertIntoBatches_nil (dc : DrawCall) :
    insertIntoBatches [] dc = [Batch.new dc] := rfl

/-- Every batch in the list after an insertion is an old batch, an old
batch that just absorbed the drawcall, or a fresh batch built from it. -/
theorem mem_insertIntoBatches {dc : DrawCall} :
    ∀ {bl : List Batch} {b : Batch}, b ∈ insertIntoBatches bl dc →
      b ∈ bl ∨ (∃ b0 ∈ bl, (b0.add dc).1 = true ∧ b = (b0.add dc).2) ∨ b = Batch.new dc := by
  intro bl
  induction bl with
  | nil =>
    intro b hb
    rw [insertIntoBatches_nil, List.mem_singleton] at hb
    exact Or.inr (Or.inr hb)
  | cons b0 rest ih =>
    intro b hb
    rw [insertIntoBatches_cons] at hb
    by_cases h : (b0.add dc).1 = true
    · rw [if_pos h] at hb
      rcases List.mem_cons.mp hb with rfl | hmem
      · exact Or.inr (Or.inl ⟨b0, List.mem_cons_self b0 rest, h, rfl⟩)
      · exact Or.inl (List.mem_cons_of_mem b0 hmem)
    · rw [if_neg h] at hb
      have hfalse : (b0.add dc).1 = false := by
        cases hx : (b0.add dc).1
        · rfl
        · exact absurd hx h
      rcases List.mem_cons.mp hb with rfl | hmem
      · rw [Batch.add_false_snd b0 dc hfalse]
        exact Or.inl (List.mem_cons_self b0 rest)
      · rcases ih hmem with h1 | ⟨b1, hb1, ht1, rfl⟩ | h2
        · exact Or.inl (List.mem_cons_of_mem b0 h1)
        · exact Or.inr (Or.inl ⟨b1, List.mem_cons_of_mem b0 hb1, ht1, rfl⟩)
        · exact Or.inr (Or.inr h2)

/-- When every existing batch is full, the scan fails throughout and a
fresh batch is appended at the end. -/
theorem insertIntoBatches_all_full (dc : DrawCall) :
    ∀ (l : List Batch), (∀ b ∈ l, MAX_BATCH_SIZE ≤ b.obj_count) →
      insertIntoBatches l dc = l ++ [Batch.new dc] := by
  intro l
  induction l with
  | nil => intro _; rfl
  | cons b0 rest ih =>
    intro h
    rw [insertIntoBatches_cons, Batch.add_of_full b0 dc (h b0 (List.mem_cons_self b0 rest))]
    dsimp only
    rw [if_neg Bool.false_ne_true, ih (fun b hb => h b (List.mem_cons_of_mem b0 hb))]
    rfl

/-- First-fit: full batches before the first batch that accepts the
drawcall are skipped, the accepting batch absorbs it, and everything
after it is untouched. -/
theorem insertIntoBatches_full_heads (dc : DrawCall) :
    ∀ (init : List Batch) (lst : Batch) (rest : List Batch),
      (∀ b ∈ init, MAX_BATCH_SIZE ≤ b.obj_count) → (lst.add dc).1 = true →
      insertIntoBatches (init ++ lst :: rest) dc = init ++ (lst.add dc).2 :: rest := by
  intro init
  induction init with
  | nil =>
    intro lst rest _ htrue
    rw [List.nil_append, insertIntoBatches_cons, if_pos htrue, List.nil_append]
  | cons b0 init ih =>
    intro lst rest h htrue
    rw [List.cons_append, insertIntoBatches_cons,
      Batch.add_of_full b0 dc (h b0 (List.mem_cons_self b0 init))]
    dsimp only
    rw [if_neg Bool.false_ne_true,
      ih lst rest (fun b hb => h b (List.mem_cons_of_mem b0 hb)) htrue, List.cons_append]

/-- Inserting a frame of drawcalls splits over list append. -/
theorem BatchList.insertAll_append (l : BatchList) (xs ys : List DrawCall) :
    BatchList.insertAll l (xs ++ ys) =
      BatchList.insertAll (BatchList.insertAll l xs) ys := by
  simp [BatchList.insertAll, List.foldl_append]

/-- Inserting a frame that ends with one more drawcall. -/
theorem BatchList.insertAll_concat (l : BatchList) (xs : List DrawCall) (dc : DrawCall) :
    BatchList.insertAll l (xs ++ [dc]) =
      BatchList.insert (BatchList.insertAll l xs) dc := by
  simp [BatchList.insertAll, List.foldl_append]

/-- Earlier instance slots survive a later `Batch::add`: the new write
window starts at `obj_count * BATCH_INSTANCE_SIZE`, above them. -/
theorem BatchMatchesAt.of_add (b : Batch) (dc dc0 : DrawCall) (j : Nat)
    (hj : j < b.obj_count) (hm : BatchMatchesAt b j dc0) :
    BatchMatchesAt (b.add dc).2 j dc0 := by
  cases h : (b.add dc).1
  · rw [Batch.add_false_snd b dc h]
    exact hm
  · obtain ⟨_, _, _, _, heq⟩ := Batch.add_true_spec b dc h
    obtain ⟨m1, m2, m3, m4, m5⟩ := hm
    rw [heq]
    refine ⟨m1, m2, m3, ?_, ?_⟩
    · intro i
      show writeInstance b.buffer (b.obj_count * BATCH_INSTANCE_SIZE) dc
        (j * BATCH_INSTANCE_SIZE + i.val) = dc0.tex_position.ix i
      rw [writeInstance_lower _ _ _ _
        (by simp only [BATCH_INSTANCE_SIZE]; have := i.isLt; omega)]
      exact m4 i
    · intro i
      show writeInstance b.buffer (b.obj_count * BATCH_INSTANCE_SIZE) dc
        (j * BATCH_INSTANCE_SIZE + 4 + i.val) =
        (dc0.matrix.col ⟨i.val / 4, by have := i.isLt; omega⟩).ix
          ⟨i.val % 4, by have := i.isLt; omega⟩
      rw [writeInstance_lower _ _ _ _
        (by simp only [BATCH_INSTANCE_SIZE]; have := i.isLt; omega)]
      exact m5 i

/-- A successful `Batch::add` makes the new top slot hold exactly the
drawcall data, compatibly with the key. -/
theorem BatchMatchesAt.add_self (b : Batch) (dc : DrawCall)
    (h : (b.add dc).1 = true) :
    BatchMatchesAt (b.add dc).2 b.obj_count dc := by
  obtain ⟨hp, hm, ht, _, heq⟩ := Batch.add_true_spec b dc h
  rw [heq]
  refine ⟨hp, hm, ht, ?_, ?_⟩
  · intro i
    exact writeInstance_tex_get b.buffer (b.obj_count * BATCH_INSTANCE_SIZE) dc i
  · intro i
    exact writeInstance_mat_get b.buffer (b.obj_count * BATCH_INSTANCE_SIZE) dc i

/-- Slot 0 of a fresh batch holds exactly the founding drawcall data. -/
theorem BatchMatchesAt.new_self (dc : DrawCall) :
    BatchMatchesAt (Batch.new dc) 0 dc := by
  rw [Batch.new_spec]
  refine ⟨rfl, rfl, rfl, ?_, ?_⟩
  · intro i
    have h := writeInstance_tex_get (fun _ => 0) 0 dc i
    rw [Nat.zero_add] at h
    simp only [Nat.zero_mul, Nat.zero_add]
    exact h
  · intro i
    have h := writeInstance_mat_get (fun _ => 0) 0 dc i
    rw [Nat.zero_add] at h
    simp only [Nat.zero_mul, Nat.zero_add]
    exact h

/-- Master invariant of a frame: after inserting any sequence of
drawcalls into an empty list, every batch's instances are exactly the
data of a subsequence of the submitted drawcalls (in submission
order), and no batch exceeds the capacity. -/
theorem insertAll_provenance (dcs : List DrawCall) :
    ∀ b ∈ (BatchList.insertAll BatchList.new dcs).batches,
      Provenance dcs b ∧ b.obj_count ≤ MAX_BATCH_SIZE := by
  induction dcs using List.reverseRecOn with
  | nil =>
    intro b hb
    simp [BatchList.insertAll, BatchList.new] at hb
  | append_singleton dcs dc ih =>
    intro b hb
    rw [BatchList.insertAll_concat] at hb
    rcases mem_insertIntoBatches hb with hmem | ⟨b0, hb0, htrue, rfl⟩ | rfl
    · obtain ⟨⟨ds, hsub, hlen, hmatch⟩, hcount⟩ := ih b hmem
      exact ⟨⟨ds, hsub.trans (List.sublist_append_left dcs [dc]), hlen, hmatch⟩, hcount⟩
    · obtain ⟨⟨ds, hsub, hlen, hmatch⟩, hcount⟩ := ih b0 hb0
      obtain ⟨hp, hm, ht, hlt, heq⟩ := Batch.add_true_spec b0 dc htrue
      refine ⟨⟨ds ++ [dc], hsub.append (List.Sublist.refl [dc]), ?_, ?_⟩, ?_⟩
      · rw [heq]
        simp [hlen]
      · intro k hk
        rcases Nat.lt_or_ge k ds.length with hklt | hkge
        · have e : (ds ++ [dc]).get ⟨k, hk⟩ = ds.get ⟨k, hklt⟩ := by
            simp [List.getElem_append_left hklt]
          rw [e]
          exact BatchMatchesAt.of_add b0 dc _ k (hlen ▸ hklt) (hmatch k hklt)
        · have hk_eq : k = ds.length := by
            have : k < ds.length + 1 := by simpa using hk
            omega
          subst hk_eq
          have e : (ds ++ [dc]).get ⟨ds.length, hk⟩ = dc := by
            simp [List.getElem_concat_length]
          rw [e, hlen]
          exact BatchMatchesAt.add_self b0 dc htrue
      · rw [heq]
        show b0.obj_count + 1 ≤ MAX_BATCH_SIZE
        omega
    · refine ⟨⟨[dc], List.sublist_append_right dcs [dc], ?_, ?_⟩, ?_⟩
      · rw [Batch.new_spec]
        rfl
      · intro k hk
        have hk0 : k = 0 := by simpa using hk
        subst hk0
        exact BatchMatchesAt.new_self dc
      · rw [Batch.new_spec]
        show 1 ≤ MAX_BATCH_SIZE
        decide

/-- One insertion of a key-(p, m, t) drawcall preserves the first-fit
shape and grows the total object count by exactly one. -/
theorem firstFitShape_insert (p : Program) (m : Mesh) (t : TextureID) (dc : DrawCall)
    (hdcp : dc.program = p) (hdcm : dc.mesh = m) (hdct : dc.texture.id = t)
    (l : List Batch) (n : Nat) (h : FirstFitShape p m t l n) :
    FirstFitShape p m t (insertIntoBatches l dc) (n + 1) := by
  rcases h with ⟨rfl, rfl⟩ | ⟨init, lst, rfl, hinit, hklst, h1, h2, hn⟩
  · rw [insertIntoBatches_nil]
    right
    refine ⟨[], Batch.new dc, rfl, by simp, ?_, ?_, ?_, ?_⟩
    · rw [Batch.new_spec]
      exact ⟨hdcp, hdcm, hdct⟩
    · rw [Batch.new_spec]
    · rw [Batch.new_spec]
      show 1 ≤ MAX_BATCH_SIZE
      decide
    · rw [Batch.new_spec]
      simp
  · by_cases hfull : lst.obj_count = MAX_BATCH_SIZE
    · have hallfull : ∀ b ∈ init ++ [lst], MAX_BATCH_SIZE ≤ b.obj_count := by
        intro b hb
        rcases List.mem_append.mp hb with hb | hb
        · exact le_of_eq ((hinit b hb).2).symm
        · rw [List.mem_singleton] at hb
          subst hb
          exact le_of_eq hfull.symm
      rw [insertIntoBatches_all_full dc _ hallfull]
      right
      refine ⟨init ++ [lst], Batch.new dc, by rw [List.append_assoc], ?_, ?_, ?_, ?_, ?_⟩
      · intro b hb
        rcases List.mem_append.mp hb with hb | hb
        · exact hinit b hb
        · rw [List.mem_singleton] at hb
          subst hb
          exact ⟨hklst, hfull⟩
      · rw [Batch.new_spec]
        exact ⟨hdcp, hdcm, hdct⟩
      · rw [Batch.new_spec]
      · rw [Batch.new_spec]
        show 1 ≤ MAX_BATCH_SIZE
        decide
      · rw [Batch.new_spec]
        show n + 1 = MAX_BATCH_SIZE * (init ++ [lst]).length + 1
        rw [hn, hfull, List.length_append, List.length_singleton]
        ring
    · have hlt : lst.obj_count < MAX_BATCH_SIZE := lt_of_le_of_ne h2 hfull
      obtain ⟨hkp, hkm, hkt⟩ := hklst
      have heq := Batch.add_of_ok lst dc (by rw [hdcp, hkp]) (by rw [hdcm, hkm])
        (by rw [hdct, hkt]) hlt
      have htrue : (lst.add dc).1 = true := by rw [heq]
      have hfullinit : ∀ b ∈ init, MAX_BATCH_SIZE ≤ b.obj_count :=
        fun b hb => le_of_eq ((hinit b hb).2).symm
      rw [insertIntoBatches_full_heads dc init lst [] hfullinit htrue]
      right
      refine ⟨init, (lst.add dc).2, rfl, hinit, ?_, ?_, ?_, ?_⟩
      · rw [heq]
        exact ⟨hkp, hkm, hkt⟩
      · rw [heq]
        show 1 ≤ lst.obj_count + 1
        omega
      · rw [heq]
        show lst.obj_count + 1 ≤ MAX_BATCH_SIZE
        omega
      · rw [heq]
        show n + 1 = MAX_BATCH_SIZE * init.length + (lst.obj_count + 1)
        rw [hn, Nat.add_assoc]

/-- On a homogeneous frame, the batch list always has the first-fit
shape, with total object count equal to the number of insertions. -/
theorem insertAll_firstFitShape (p : Program) (m : Mesh) (t : TextureID)
    (dcs : List DrawCall)
    (h : ∀ dc ∈ dcs, dc.program = p ∧ dc.mesh = m ∧ dc.texture.id = t) :
    FirstFitShape p m t (BatchList.insertAll BatchList.new dcs).batches dcs.length := by
  induction dcs using List.reverseRecOn with
  | nil =>
    left
    exact ⟨rfl, rfl⟩
  | append_singleton dcs dc ih =>
    rw [BatchList.insertAll_concat]
    have hdc := h dc (List.mem_append.mpr (Or.inr (List.mem_singleton_self dc)))
    have hshape := ih (fun d hd => h d (List.mem_append.mpr (Or.inl hd)))
    have hstep := firstFitShape_insert p m t dc hdc.1 hdc.2.1 hdc.2.2 _ _ hshape
    simpa using hstep

/-- Total object count of a run of batches that all hold c objects. -/
theorem sum_map_obj_count_of_eq (c : Nat) :
    ∀ (l : List Batch), (∀ b ∈ l, b.obj_count = c) →
      (l.map Batch.obj_count).sum = c * l.length := by
  intro l
  induction l with
  | nil =>
    intro _
    simp
  | cons b rest ih =>
    intro h
    rw [List.map_cons, List.sum_cons, List.length_cons,
      h b (List.mem_cons_self b rest),
      ih (fun x hx => h x (List.mem_cons_of_mem b hx))]
    ring

/-- After one A and one B insertion the list holds one batch per
texture, one object each. -/
theorem altState_one : AltState 1 (BatchList.insertAll BatchList.new [dcA, dcB]).batches := by
  have h2 : (Batch.new dcA).add dcB = (false, Batch.new dcA) :=
    Batch.add_of_mismatch _ _ (Or.inr (Or.inr (by rw [Batch.new_spec]; decide)))
  have hstep : (BatchList.insertAll BatchList.new [dcA, dcB]).batches
      = [Batch.new dcA, Batch.new dcB] := by
    show insertIntoBatches (insertIntoBatches [] dcA) dcB = _
    rw [insertIntoBatches_nil, insertIntoBatches_cons, h2]
    dsimp only
    rw [if_neg Bool.false_ne_true, insertIntoBatches_nil]
  refine ⟨Batch.new dcA, Batch.new dcB, hstep, ?_, ?_, ?_, ?_, ?_, ?_, ?_, ?_⟩ <;>
    (rw [Batch.new_spec]; try decide)

/-- One more (A, B) pair of insertions grows both batches by one while
each is below capacity. -/
theorem altState_step (k : Nat) (hk : k < MAX_BATCH_SIZE) (l : List Batch)
    (h : AltState k l) :
    AltState (k + 1) (insertIntoBatches (insertIntoBatches l dcA) dcB) := by
  obtain ⟨bA, bB, rfl, pa, ma, ta, ca, pb, mb, tb, cb⟩ := h
  have haddA := Batch.add_of_ok bA dcA pa.symm ma.symm (by rw [ta]; decide)
    (by rw [ca]; exact hk)
  have htrueA : (bA.add dcA).1 = true := by rw [haddA]
  have h1 : insertIntoBatches [bA, bB] dcA = [(bA.add dcA).2, bB] := by
    rw [insertIntoBatches_cons, if_pos htrueA]
  have htex : (bA.add dcA).2.texture = texA.id := by
    rw [(Batch.add_preserves_fields bA dcA).2.2.1, ta]
  have haddB1 : (bA.add dcA).2.add dcB = (false, (bA.add dcA).2) :=
    Batch.add_of_mismatch _ _ (Or.inr (Or.inr (by rw [htex]; decide)))
  have haddB2 := Batch.add_of_ok bB dcB pb.symm mb.symm (by rw [tb]; decide)
    (by rw [cb]; exact hk)
  have htrueB : (bB.add dcB).1 = true := by rw [haddB2]
  have h2 : insertIntoBatches [(bA.add dcA).2, bB] dcB
      = [(bA.add dcA).2, (bB.add dcB).2] := by
    rw [insertIntoBatches_cons, haddB1]
    dsimp only
    rw [if_neg Bool.false_ne_true, insertIntoBatches_cons, if_pos htrueB]
  rw [h1, h2]
  refine ⟨(bA.add dcA).2, (bB.add dcB).2, rfl, ?_, ?_, htex, ?_, ?_, ?_, ?_, ?_⟩
  · rw [(Batch.add_preserves_fields bA dcA).1, pa]
  · rw [(Batch.add_preserves_fields bA dcA).2.1, ma]
  · rw [haddA]
    show bA.obj_count + 1 = k + 1
    rw [ca]
  · rw [(Batch.add_preserves_fields bB dcB).1, pb]
  · rw [(Batch.add_preserves_fields bB dcB).2.1, mb]
  · rw [(Batch.add_preserves_fields bB dcB).2.2.1, tb]
  · rw [haddB2]
    show bB.obj_count + 1 = k + 1
    rw [cb]

/-- The alternating workload keeps exactly two batches, one per
texture, with k objects each after k pairs (k up to the capacity). -/
theorem altState_replicate :
    ∀ k, 1 ≤ k → k ≤ MAX_BATCH_SIZE →
      AltState k (BatchList.insertAll BatchList.new
        (List.flatten (List.replicate k [dcA, dcB]))).batches := by
  intro k
  induction k with
  | zero =>
    intro h _
    omega
  | succ k ih =>
    intro h1 h2
    by_cases hk0 : k = 0
    · subst hk0
      have e : List.flatten (List.replicate 1 [dcA, dcB]) = [dcA, dcB] := by simp
      rw [e]
      exact altState_one
    · have hrep : List.replicate (k + 1) [dcA, dcB]
          = List.replicate k [dcA, dcB] ++ [[dcA, dcB]] := List.replicate_succ' ..
      rw [hrep, List.flatten_append, BatchList.insertAll_append]
      have e2 : List.flatten [[dcA, dcB]] = [dcA, dcB] := by simp
      rw [e2]
      exact altState_step k (by omega) _ (ih (by omega) (by omega))

/-- C1: for every sequence of N drawcalls sharing one (program, mesh,
texture) key, inserting them one by one into an empty `BatchList`
produces exactly ceil(N / MAX_BATCH_SIZE) batches, every batch holds at
most MAX_BATCH_SIZE objects, and the object counts sum to N. -/
theorem claim1_single_key_batching (p : Program) (m : Mesh) (t : TextureID)
    (dcs : List DrawCall)
    (h : ∀ dc ∈ dcs, dc.program = p ∧ dc.mesh = m ∧ dc.texture.id = t) :
    (BatchList.insertAll BatchList.new dcs).batches.length
        = (dcs.length + MAX_BATCH_SIZE - 1) / MAX_BATCH_SIZE ∧
    (∀ b ∈ (BatchList.insertAll BatchList.new dcs).batches,
        b.obj_count ≤ MAX_BATCH_SIZE) ∧
    ((BatchList.insertAll BatchList.new dcs).batches.map Batch.obj_count).sum
        = dcs.length := by
  rcases insertAll_firstFitShape p m t dcs h with ⟨hnil, hzero⟩ |
    ⟨init, lst, heq, hinit, hklst, h1, h2, hn⟩
  · rw [hnil, hzero]
    exact ⟨by decide, by simp, by simp⟩
  · have hM : MAX_BATCH_SIZE = 256 := rfl
    rw [heq]
    refine ⟨?_, ?_, ?_⟩
    · rw [List.length_append, List.length_singleton]
      rw [hM] at hn h2 ⊢
      omega
    · intro b hb
      rcases List.mem_append.mp hb with hb | hb
      · exact le_of_eq (hinit b hb).2
      · rw [List.mem_singleton] at hb
        subst hb
        exact h2
    · rw [List.map_append, List.sum_append,
        sum_map_obj_count_of_eq MAX_BATCH_SIZE init (fun b hb => (hinit b hb).2)]
      simp only [List.map_cons, List.map_nil, List.sum_cons, List.sum_nil, Nat.add_zero]
      exact hn.symm

/-- Witness for C1 at a concrete three-drawcall homogeneous frame. -/
theorem claim1_single_key_batching_witness :
    (BatchList.insertAll BatchList.new [dcA, dcA, dcA]).batches.length
        = (([dcA, dcA, dcA] : List DrawCall).length + MAX_BATCH_SIZE - 1) / MAX_BATCH_SIZE ∧
    (∀ b ∈ (BatchList.insertAll BatchList.new [dcA, dcA, dcA]).batches,
        b.obj_count ≤ MAX_BATCH_SIZE) ∧
    ((BatchList.insertAll BatchList.new [dcA, dcA, dcA]).batches.map Batch.obj_count).sum
        = ([dcA, dcA, dcA] : List DrawCall).length :=
  claim1_single_key_batching dcA.program dcA.mesh texA.id [dcA, dcA, dcA] (by decide)

/-- C2: every instance slot of every batch holds the texture region
and matrix of some submitted drawcall whose (program, mesh, texture)
key equals the batch key; in particular any two drawcalls placed in
the same batch have the same texture handle. -/
theorem claim2_batch_homogeneous (dcs : List DrawCall) :
    ∀ b ∈ (BatchList.insertAll BatchList.new dcs).batches,
      ∃ ds : List DrawCall, ds.Sublist dcs ∧ ds.length = b.obj_count ∧
        (∀ (k : Nat) (hk : k < ds.length), BatchMatchesAt b k (ds.get ⟨k, hk⟩)) ∧
        (∀ dc1 ∈ ds, ∀ dc2 ∈ ds, dc1.texture.id = dc2.texture.id) := by
  intro b hb
  obtain ⟨⟨ds, hsub, hlen, hmatch⟩, _⟩ := insertAll_provenance dcs b hb
  refine ⟨ds, hsub, hlen, hmatch, ?_⟩
  have hid : ∀ dc ∈ ds, dc.texture.id = b.texture := by
    intro dc hdc
    obtain ⟨⟨k, hk⟩, hget⟩ := List.mem_iff_get.mp hdc
    have hmk := hmatch k hk
    rw [hget] at hmk
    exact hmk.2.2.1
  intro dc1 h1 dc2 h2
  rw [hid dc1 h1, hid dc2 h2]

/-- Witness for C2 at a concrete one-drawcall frame. -/
theorem claim2_batch_homogeneous_witness :
    ∃ ds : List DrawCall, ds.Sublist [dcA] ∧ ds.length = (Batch.new dcA).obj_count ∧
      (∀ (k : Nat) (hk : k < ds.length),
        BatchMatchesAt (Batch.new dcA) k (ds.get ⟨k, hk⟩)) ∧
      (∀ dc1 ∈ ds, ∀ dc2 ∈ ds, dc1.texture.id = dc2.texture.id) :=
  claim2_batch_homogeneous [dcA] (Batch.new dcA) (List.mem_singleton_self (Batch.new dcA))

/-- C3: `Batch::add` returns false and leaves the batch unchanged on a
key mismatch or on a full batch; rejection is an ordinary return, not
a panic. -/
theorem claim3_add_rejects (b : Batch) (dc : DrawCall)
    (h : dc.program ≠ b.program ∨ dc.mesh ≠ b.mesh ∨ dc.texture.id ≠ b.texture ∨
        b.obj_count = MAX_BATCH_SIZE) :
    b.add dc = (false, b) := by
  rcases h with h | h | h | h
  · exact Batch.add_of_mismatch b dc (Or.inl h)
  · exact Batch.add_of_mismatch b dc (Or.inr (Or.inl h))
  · exact Batch.add_of_mismatch b dc (Or.inr (Or.inr h))
  · exact Batch.add_of_full b dc (le_of_eq h.symm)

/-- Witness for C3: a texture mismatch on a concrete batch. -/
theorem claim3_add_rejects_witness :
    Batch.add (Batch.new dcA) dcB = (false, Batch.new dcA) :=
  claim3_add_rejects (Batch.new dcA) dcB (by decide)

/-- C5: building a batch from a drawcall and reading back instance 0
(cells 0..3 and 4..19) returns exactly the drawcall texture region and
matrix, unchanged. -/
theorem claim5_new_roundtrip (dc : DrawCall) :
    (∀ i : Fin 4, (Batch.new dc).buffer i.val = dc.tex_position.ix i) ∧
    (∀ i : Fin 16, (Batch.new dc).buffer (4 + i.val)
        = (dc.matrix.col ⟨i.val / 4, by have := i.isLt; omega⟩).ix
            ⟨i.val % 4, by have := i.isLt; omega⟩) := by
  obtain ⟨_, _, _, h4, h16⟩ := BatchMatchesAt.new_self dc
  constructor
  · intro i
    have h := h4 i
    simp only [Nat.zero_mul, Nat.zero_add] at h
    exact h
  · intro i
    have h := h16 i
    simp only [Nat.zero_mul, Nat.zero_add] at h
    exact h

/-- C6: an accepted `Batch::add` writes the 4 texture-region floats
then the 16 matrix floats (column-major) starting at offset
`obj_count * BATCH_INSTANCE_SIZE`, increments the count, returns true. -/
theorem claim6_add_appends (b : Batch) (dc : DrawCall)
    (hp : dc.program = b.program) (hm : dc.mesh = b.mesh)
    (ht : dc.texture.id = b.texture) (hc : b.obj_count < MAX_BATCH_SIZE) :
    (b.add dc).1 = true ∧
    (b.add dc).2.obj_count = b.obj_count + 1 ∧
    (∀ i : Fin 4, (b.add dc).2.buffer (b.obj_count * BATCH_INSTANCE_SIZE + i.val)
        = dc.tex_position.ix i) ∧
    (∀ i : Fin 16, (b.add dc).2.buffer (b.obj_count * BATCH_INSTANCE_SIZE + 4 + i.val)
        = (dc.matrix.col ⟨i.val / 4, by have := i.isLt; omega⟩).ix
            ⟨i.val % 4, by have := i.isLt; omega⟩) := by
  have htrue : (b.add dc).1 = true := by rw [Batch.add_of_ok b dc hp hm ht hc]
  obtain ⟨_, _, _, h4, h16⟩ := BatchMatchesAt.add_self b dc htrue
  refine ⟨htrue, ?_, h4, h16⟩
  rw [Batch.add_of_ok b dc hp hm ht hc]

/-- Witness for C6: a second compatible drawcall on a concrete batch. -/
theorem claim6_add_appends_witness :
    ((Batch.new dcA).add dcA).1 = true ∧
    ((Batch.new dcA).add dcA).2.obj_count = (Batch.new dcA).obj_count + 1 ∧
    (∀ i : Fin 4, ((Batch.new dcA).add dcA).2.buffer
        ((Batch.new dcA).obj_count * BATCH_INSTANCE_SIZE + i.val)
        = dcA.tex_position.ix i) ∧
    (∀ i : Fin 16, ((Batch.new dcA).add dcA).2.buffer
        ((Batch.new dcA).obj_count * BATCH_INSTANCE_SIZE + 4 + i.val)
        = (dcA.matrix.col ⟨i.val / 4, by have := i.isLt; omega⟩).ix
            ⟨i.val % 4, by have := i.isLt; omega⟩) :=
  claim6_add_appends (Batch.new dcA) dcA (by decide) (by decide) (by decide) (by decide)

/-- C7: instances inside one batch appear in submission order: each
batch's instance data comes, slot by slot, from a subsequence of the
submitted drawcall sequence. -/
theorem claim7_instance_order (dcs : List DrawCall) :
    ∀ b ∈ (BatchList.insertAll BatchList.new dcs).batches,
      ∃ ds : List DrawCall, ds.Sublist dcs ∧ ds.length = b.obj_count ∧
        ∀ (k : Nat) (hk : k < ds.length), BatchMatchesAt b k (ds.get ⟨k, hk⟩) := by
  intro b hb
  exact (insertAll_provenance dcs b hb).1

/-- Witness for C7 at a concrete one-drawcall frame. -/
theorem claim7_instance_order_witness :
    ∃ ds : List DrawCall, ds.Sublist [dcB] ∧ ds.length = (Batch.new dcB).obj_count ∧
      ∀ (k : Nat) (hk : k < ds.length),
        BatchMatchesAt (Batch.new dcB) k (ds.get ⟨k, hk⟩) :=
  claim7_instance_order [dcB] (Batch.new dcB) (List.mem_singleton_self (Batch.new dcB))

/-- Counterexample to C4: on 300 drawcalls alternating between texture
A and texture B, the first-fit scan (which checks all existing batches,
not just the most recent) keeps reusing the two existing batches, so
the list holds 2 batches, not the 4 the claim states. -/
theorem claim4_counterexample :
    (BatchList.insertAll BatchList.new alternating300).batches.length = 2 ∧
    (BatchList.insertAll BatchList.new alternating300).batches.length ≠ 4 := by
  obtain ⟨bA, bB, he, pa, ma, ta, ca, pb, mb, tb, cb⟩ :=
    altState_replicate 150 (by decide) (by decide)
  unfold alternating300
  rw [he]
  exact ⟨rfl, by simp⟩

/-- C4 amended: the 300 alternating drawcalls produce exactly 2
batches, one per texture, each holding all 150 objects of its texture. -/
theorem claim4_amended_two_batches :
    (BatchList.insertAll BatchList.new alternating300).batches.length = 2 ∧
    (BatchList.insertAll BatchList.new alternating300).batches.map Batch.obj_count
        = [150, 150] ∧
    (BatchList.insertAll BatchList.new alternating300).batches.map Batch.texture
        = [texA.id, texB.id] := by
  obtain ⟨bA, bB, he, pa, ma, ta, ca, pb, mb, tb, cb⟩ :=
    altState_replicate 150 (by decide) (by decide)
  unfold alternating300
  rw [he]
  refine ⟨rfl, ?_, ?_⟩
  · simp [ca, cb]
  · simp [ta, tb]

/-- C8: `Texture::from_bytes` with a data length different from the
expected byte count returns `InvalidTextureData` carrying the pixel
size, width, height and actual length, with the GL state untouched (no
GL call issued, no texture handle allocated). -/
theorem claim8_from_bytes_rejects (data : List Nat) (options : TextureOptions)
    (width height : Nat) (s : GlState)
    (h : data.length ≠ (options.format.pixel_length * width * height) % 2 ^ 32) :
    Texture.from_bytes data options width height s =
      (Except.error (TextureError.InvalidTextureData options.format.pixel_length
        width height data.length), s) := by
  unfold Texture.from_bytes
  rw [if_pos h]

/-- Witness for C8: 10 bytes for an RGBA 2 x 2 texture (16 expected)
yields `InvalidTextureData(4, 2, 2, 10)` and an unchanged GL state. -/
theorem claim8_from_bytes_rejects_witness :
    Texture.from_bytes data10 exOptions 2 2 glState0 =
      (Except.error (TextureError.InvalidTextureData 4 2 2 10), glState0) :=
  claim8_from_bytes_rejects data10 exOptions 2 2 glState0 (by decide)

/-- C9: for an orthographic camera with width S, height S and any
near plane, the projection matrix maps (S/2, S/2, near) to clip-space
x = y = 1 and (-S/2, -S/2, near) to x = y = -1 (exactly, in the
rational model, hence approximately for floats). -/
theorem claim9_ortho_corners (persp : Rat → Rat → Rat → Rat → Matrix4f)
    (c : Camera) (S : Rat)
    (hpersp : c.perspective = false) (hx : c.size.x = S) (hy : c.size.y = S)
    (hS : S ≠ 0) :
    ((c.proj_matrix persp).mulVec ⟨S / 2, S / 2, c.near, 1⟩).x = 1 ∧
    ((c.proj_matrix persp).mulVec ⟨S / 2, S / 2, c.near, 1⟩).y = 1 ∧
    ((c.proj_matrix persp).mulVec ⟨-(S / 2), -(S / 2), c.near, 1⟩).x = -1 ∧
    ((c.proj_matrix persp).mulVec ⟨-(S / 2), -(S / 2), c.near, 1⟩).y = -1 := by
  unfold Camera.proj_matrix
  rw [hpersp, hx, hy, if_neg Bool.false_ne_true]
  unfold orthoMatrix Matrix4f.mulVec
  dsimp only
  refine ⟨?_, ?_, ?_, ?_⟩ <;> (field_simp; try ring)

/-- Witness for C9 at the concrete camera cam0 (S = 2, near = 1). -/
theorem claim9_ortho_corners_witness :
    ((cam0.proj_matrix persp0).mulVec ⟨2 / 2, 2 / 2, cam0.near, 1⟩).x = 1 ∧
    ((cam0.proj_matrix persp0).mulVec ⟨2 / 2, 2 / 2, cam0.near, 1⟩).y = 1 ∧
    ((cam0.proj_matrix persp0).mulVec ⟨-(2 / 2), -(2 / 2), cam0.near, 1⟩).x = -1 ∧
    ((cam0.proj_matrix persp0).mulVec ⟨-(2 / 2), -(2 / 2), cam0.near, 1⟩).y = -1 :=
  claim9_ortho_corners persp0 cam0 2 rfl rfl rfl (by decide)

/-- C10: after any sequence of insertions into an empty `BatchList`,
every batch in the list is nonempty and within capacity: the `add`
inside `Batch::new` always succeeds, so no zero-instance batch exists. -/
theorem claim10_batches_nonempty (dcs : List DrawCall) :
    ∀ b ∈ (BatchList.insertAll BatchList.new dcs).batches,
      1 ≤ b.obj_count ∧ b.obj_count ≤ MAX_BATCH_SIZE := by
  induction dcs using List.reverseRecOn with
  | nil =>
    intro b hb
    simp [BatchList.insertAll, BatchList.new] at hb
  | append_singleton dcs dc ih =>
    intro b hb
    rw [BatchList.insertAll_concat] at hb
    rcases mem_insertIntoBatches hb with hmem | ⟨b0, hb0, htrue, rfl⟩ | rfl
    · exact ih b hmem
    · obtain ⟨_, _, _, hlt, heq⟩ := Batch.add_true_spec b0 dc htrue
      rw [heq]
      show 1 ≤ b0.obj_count + 1 ∧ b0.obj_count + 1 ≤ MAX_BATCH_SIZE
      omega
    · rw [Batch.new_spec]
      show 1 ≤ 1 ∧ 1 ≤ MAX_BATCH_SIZE
      exact ⟨Nat.le_refl 1, by decide⟩

/-- Witness for C10 at a concrete one-drawcall frame. -/
theorem claim10_batches_nonempty_witness :
    1 ≤ (Batch.new dcA).obj_count ∧ (Batch.new dcA).obj_count ≤ MAX_BATCH_SIZE :=
  claim10_batches_nonempty [dcA] (Batch.new dcA) (List.mem_singleton_self (Batch.new dcA))
